import Mathlib

/-!
Verification development for the yapmidi MIDI toolkit.

Each definition below is a shallow embedding of a function or method of the
repository (file and symbol named in its doc comment).  Machine bytes are
modelled as `Nat` (Python ints), Python floats as `ℚ` (exact at the inputs
used here), fallible Python code as `Except PyErr`, and mutable object state
as explicit state records threaded through the functions.
-/

/-- Python exception kinds that the embedded code can raise. -/
inductive PyErr where
  | typeError
  | attributeError
  | keyError
  | indexError
  | assertionError
  | stopPlayback
deriving DecidableEq, Repr

/-- Modelled from the spec: `ymidi/constants.py` in `src/` stops after the
channel-message constants, but the decoder and container modules import
`META`, `SYSTEM_EXCLUSIVE`, `EOX`, `TRACK_END`, `TEMPO_SET`, ... from it.
The spec fixes the Meta grammar introducer as 0xFF (section 4.E). -/
def META : Nat := 0xFF

/-- Modelled from the spec: SysEx status byte 0xF0 (spec sections 4.A, 6). -/
def SYSTEM_EXCLUSIVE : Nat := 0xF0

/-- Modelled from the spec: SysEx end sentinel 0xF7 "EOX" (spec section 4.A). -/
def EOX : Nat := 0xF7

/-- Modelled from the spec: EndOfTrack meta type; the spec gives the
EndOfTrack record as `0x00 0xFF 0x2F 0x00` (section 6), so `TRACK_END = 0x2F`. -/
def TRACK_END : Nat := 0x2F

/-- Modelled from the spec: SetTempo meta type byte; the standard SMF
SetTempo meta type used by the spec's Meta grammar is 0x51. -/
def TEMPO_SET : Nat := 0x51

/-- Status message of `UnknownMetaEvent` (`ymidi/events/builtin.py`, in
`src/`): builtin events carry negative status messages; UnknownMetaEvent
has `statusmsg = -4`. -/
def UNKNOWN_META : Int := -4

/- ----------------------------------------------------------------- -/
/- Variable-length quantity codec: `write_varlen` (ymidi/misc.py) and
   `MetaDecoder.read_varlen` (ymidi/decoder.py). -/

/-- The `while num:` loop of `write_varlen` (`ymidi/misc.py`): collect the
base-128 groups of `num`, least significant group first. -/
def write_varlen_groups : Nat → List Nat
  | 0 => []
  | n + 1 => ((n + 1) % 128) :: write_varlen_groups ((n + 1) / 128)
decreasing_by exact Nat.div_lt_self (Nat.succ_pos n) (by decide)

/-- The `for i in range(len(bytes) - 1): bytes[i] |= 0x80` loop of
`write_varlen`: set the continuation bit on every group except the last. -/
def mark_continuation : List Nat → List Nat
  | [] => []
  | [x] => [x]
  | x :: y :: rest => (x ||| 0x80) :: mark_continuation (y :: rest)

/-- `write_varlen` (`ymidi/misc.py` lines 17-47; the identical method also
appears on `MetaDecoder`).  Despite its `bytes` annotation the source
returns a Python list of ints, `[0]` for input 0. -/
def write_varlen (num : Nat) : List Nat :=
  match write_varlen_groups num with
  | [] => [0]
  | l => mark_continuation l.reverse

/-- `MetaDecoder.read_varlen` (`ymidi/decoder.py` lines 796-849): traverse
the source accumulating `var_final = (var_final << 7) | (byte & 0x7f)` and
counting `var_index`; on a byte without the continuation bit return the
accumulated value and the byte count (the source resets its state fields
and returns the pre-reset values); if the source is exhausted first,
return `None`.  The two trailing arguments are the decoder's persistent
`var_final` and `var_index` state, both 0 on a fresh or reset decoder. -/
def read_varlen : List Nat → Nat → Nat → Option (Nat × Nat)
  | [], _, _ => none
  | b :: rest, var_final, var_index =>
    let vf := (var_final <<< 7) ||| (b &&& 0x7f)
    let vi := var_index + 1
    if b < 0x80 then some (vf, vi) else read_varlen rest vf vi

/- ----------------------------------------------------------------- -/
/- ModularDecoder (ymidi/decoder.py). -/

/-- Event-class descriptor: the class attributes of a registered event that
`ModularDecoder.decode`/`seq_decode` consult.  `length` is the class
`length` attribute (`-1` for variable-length events), `end_status` is
`end.statusmsg` when the class has an `end` attribute, `is_unknown` tells
whether the entry `is UnknownEvent`, and `tag` identifies the class (the
constructor used when the event is built). -/
structure EvDesc where
  length : Int
  is_unknown : Bool
  end_status : Option Nat
  has_channel : Bool
  tag : Nat
deriving DecidableEq, Repr

/-- An event instance produced by the decoder: the constructing class
(`tag`), the positional data passed to the constructor, and the channel
attached afterwards for channel-typed events (`None` otherwise). -/
structure PyEvent where
  tag : Nat
  args : List Nat
  channel : Option Nat
deriving DecidableEq, Repr

/-- Mutable decoding state of a `ModularDecoder`: `decode_status`,
`self.data` (stack of byte buffers) and `self.event` (stack of event
classes), all manipulated at index 0 by the source. -/
structure DecState where
  decode_status : List Nat
  data : List (List Nat)
  event : List EvDesc
deriving DecidableEq, Repr

/-- `BaseDecoder.is_status` (`ymidi/decoder.py`): `128 <= num <= 255`. -/
def is_status (num : Nat) : Bool := 128 ≤ num && num ≤ 255

/-- Construction step of `ModularDecoder.decode`: `event(*val)` followed by
`final.channel = self.decode_status[0] & 0x0F` for channel events. -/
def mk_py_event (ev : EvDesc) (s : Nat) (val : List Nat) : PyEvent :=
  { tag := ev.tag, args := val
    channel := if ev.has_channel then some (s &&& 0x0F) else none }

/-- `ModularDecoder.decode` (`ymidi/decoder.py` lines 313-384) over a
collection `coll` (the `self.collection` dict) and the current
`decode_status` list `ds`.  If `bts[0]` is a status byte it is inserted at
the front of `decode_status`; the event class is then looked up under
`decode_status[0]` (KeyError when absent), the data bytes are `bts[1:]`
(with the status prepended for UnknownEvent), a variable-length event
asserts and drops its end byte, and the instance is built.  Returns the
instance together with the updated `decode_status`. -/
def decode (coll : Nat → Option EvDesc) (ds : List Nat) (bts : List Nat) :
    Except PyErr (PyEvent × List Nat) :=
  match bts with
  | [] => .error .indexError
  | b0 :: rest =>
    let ds2 := if is_status b0 then b0 :: ds else ds
    match ds2 with
    | [] => .error .indexError
    | s :: _ =>
      match coll s with
      | none => .error .keyError
      | some ev =>
        let val := if ev.is_unknown then s :: rest else rest
        if ev.length == -1 then
          match ev.end_status with
          | none => .error .attributeError
          | some e =>
            match val.getLast? with
            | none => .error .indexError
            | some last =>
              if last == e then .ok (mk_py_event ev s val.dropLast, ds2)
              else .error .assertionError
        else .ok (mk_py_event ev s val, ds2)

/-- Completion tail of `ModularDecoder.seq_decode`: decode `self.data[0]`,
clear it, and if `len(self.decode_status) > 1` pop the front of all three
stacks (the cleared buffer is the one popped).  `seq_decode` only reaches
this with a non-empty `event` stack, so the `tail` on `event` matches the
source's `pop(0)`. -/
def seq_finish (coll : Nat → Option EvDesc) (st : DecState) :
    Except PyErr (Option PyEvent × DecState) :=
  match st.data with
  | [] => .error .indexError
  | d0 :: drest =>
    match decode coll st.decode_status d0 with
    | .error e => .error e
    | .ok (ev, ds2) =>
      if ds2.length > 1 then
        .ok (some ev, ⟨ds2.tail, drest, st.event.tail⟩)
      else
        .ok (some ev, ⟨ds2, [] :: drest, st.event⟩)

/-- The completion check of `ModularDecoder.seq_decode`:
`len(self.data[0]) - 1 == self.event[0].length` (an empty `data` or
`event` stack raises IndexError, the running-status hole of the source). -/
def seq_check (coll : Nat → Option EvDesc) (st : DecState) :
    Except PyErr (Option PyEvent × DecState) :=
  match st.data, st.event with
  | [], _ => .error .indexError
  | _, [] => .error .indexError
  | d0 :: _, e0 :: _ =>
    if ((d0.length : Int) - 1) == e0.length then seq_finish coll st
    else .ok (none, st)

/-- `ModularDecoder.seq_decode` (`ymidi/decoder.py` lines 386-478) for one
input byte `num`: a status byte either terminates the top frame (when it is
the `end` of a variable-length event or the top frame is UnknownEvent) with
the byte appended to the frame's buffer, or pushes a fresh frame; a data
byte is appended to the top buffer (a new buffer is opened when the `data`
stack is empty); afterwards the completion check may decode and return an
event. -/
def seq_decode (coll : Nat → Option EvDesc) (st : DecState) (num : Nat) :
    Except PyErr (Option PyEvent × DecState) :=
  if is_status num then
    match coll num with
    | none => .error .keyError
    | some ev =>
      match st.event with
      | top :: _ =>
        if (top.length == -1 && top.end_status == some num) || top.is_unknown then
          match st.data with
          | [] => .error .indexError
          | d0 :: drest => seq_finish coll { st with data := (d0 ++ [num]) :: drest }
        else
          seq_check coll ⟨num :: st.decode_status, [num] :: st.data, ev :: st.event⟩
      | [] =>
        seq_check coll ⟨num :: st.decode_status, [num] :: st.data, ev :: st.event⟩
  else
    match st.data with
    | [] => seq_check coll { st with data := [[num]] }
    | d0 :: drest => seq_check coll { st with data := (d0 ++ [num]) :: drest }

/-- Repeated `seq_decode` over a byte list, collecting the per-call return
values (the way a caller feeds a stream one byte at a time). -/
def seq_decode_list (coll : Nat → Option EvDesc) :
    DecState → List Nat → Except PyErr (List (Option PyEvent) × DecState)
  | st, [] => .ok ([], st)
  | st, b :: rest =>
    match seq_decode coll st b with
    | .error e => .error e
    | .ok (o, st2) =>
      match seq_decode_list coll st2 rest with
      | .error e => .error e
      | .ok (os, st3) => .ok (o :: os, st3)

/- ----------------------------------------------------------------- -/
/- MetaDecoder (ymidi/decoder.py). -/

/-- Meta event-class descriptor: the class attributes of an entry of
`MetaDecoder.meta_collection` that `seq_decode` consults — its identity
(`tag`, the class) and its `statusmsg` (META for registered meta events,
`UNKNOWN_META` for `UnknownMetaEvent`, the defaultdict default). -/
structure MetaClsDesc where
  tag : Nat
  statusmsg : Int
deriving DecidableEq, Repr

/-- The `UnknownMetaEvent` class as a descriptor (`ymidi/events/builtin.py`:
`statusmsg = -4`); default of the `meta_collection` defaultdict. -/
def unknown_meta_cls : MetaClsDesc := ⟨0x1000, UNKNOWN_META⟩

/-- Lookup in `meta_collection`: a `defaultdict` returning
`UnknownMetaEvent` for any unregistered key (including the key `None`,
which is never registered). -/
def meta_lookup (mcoll : Nat → Option MetaClsDesc) : Option Nat → MetaClsDesc
  | none => unknown_meta_cls
  | some k => (mcoll k).getD unknown_meta_cls

/-- Mutable state of a `MetaDecoder`: the meta-decoding context variables,
the varlen context shared with `read_varlen`, and the inherited
`ModularDecoder` state. -/
structure MetaState where
  meta_decode : Bool
  meta_type : Option Nat
  meta_length : Nat
  meta_byts : List Nat
  var_final : Nat
  var_index : Nat
  mod : DecState
deriving DecidableEq, Repr

/-- `MetaDecoder.reset` (`ymidi/decoder.py` lines 544-564): restore every
meta/varlen context variable to its initial value (the inherited
`ModularDecoder` stacks are not touched). -/
def meta_reset (st : MetaState) : MetaState :=
  { st with meta_decode := false, meta_type := none, meta_length := 0,
            meta_byts := [], var_final := 0, var_index := 0 }

/-- Return value of `MetaDecoder.seq_decode`: `None`, the event CLASS taken
from `meta_collection` (the `return event` at the end of the meta branch),
or an event INSTANCE coming from the inherited `ModularDecoder.seq_decode`. -/
inductive MetaRet where
  | noRet
  | retCls (c : MetaClsDesc)
  | retEvent (e : PyEvent)
deriving DecidableEq, Repr

/-- Python truthiness of `self.meta_type` (`None` and `0` are falsy). -/
def py_truthy_type : Option Nat → Bool
  | none => false
  | some n => n != 0

/-- The instance `final = event(*self.meta_byts)` that
`MetaDecoder.seq_decode` constructs on the completing call (after the two
`insert(0, ...)` calls when the class is UnknownMetaEvent) — and then
discards, returning the class instead. -/
def meta_constructed (mcoll : Nat → Option MetaClsDesc) (st : MetaState) : PyEvent :=
  let ev := meta_lookup mcoll st.meta_type
  let byts := if ev.statusmsg == UNKNOWN_META then
      META :: st.meta_type.getD 0 :: st.meta_byts
    else st.meta_byts
  ⟨ev.tag, byts, none⟩

/-- The `if len(self.meta_byts) == self.meta_length:` completion check of
`MetaDecoder.seq_decode`: when the body is complete, look the class up,
build `final = event(*self.meta_byts)` (discarded by the source), reset the
decoder, and return `event` — the class itself, not the instance. -/
def meta_check_done (mcoll : Nat → Option MetaClsDesc) (st : MetaState) :
    Except PyErr (MetaRet × MetaState) :=
  if st.meta_byts.length == st.meta_length then
    let ev := meta_lookup mcoll st.meta_type
    .ok (.retCls ev, meta_reset st)
  else .ok (.noRet, st)

/-- `MetaDecoder.seq_decode` (`ymidi/decoder.py` lines 682-772) for one
byte.  0xFF/0xF0/0xF7 enter meta-decode mode (0xF0/0xF7 also set the type);
inside meta mode the first byte with a falsy `meta_type` becomes the type,
the next byte feeds `read_varlen([byte])` to obtain `meta_length`
(`res, _ = self.read_varlen([byte])` unpacks `None` and raises TypeError
when the byte carries the continuation bit), further bytes are appended to
`meta_byts`; outside meta mode the byte is passed to the inherited
`ModularDecoder.seq_decode`. -/
def meta_seq_decode (coll : Nat → Option EvDesc) (mcoll : Nat → Option MetaClsDesc)
    (st : MetaState) (byte : Nat) : Except PyErr (MetaRet × MetaState) :=
  if byte = META ∨ byte = SYSTEM_EXCLUSIVE ∨ byte = EOX then
    let st1 := { st with meta_decode := true }
    let st2 := if byte = SYSTEM_EXCLUSIVE ∨ byte = EOX then
        { st1 with meta_type := some byte } else st1
    .ok (.noRet, st2)
  else if st.meta_decode then
    if ¬ py_truthy_type st.meta_type then
      .ok (.noRet, { st with meta_type := some byte })
    else if st.meta_length = 0 then
      if byte < 0x80 then
        let res := (st.var_final <<< 7) ||| (byte &&& 0x7f)
        meta_check_done mcoll { st with meta_length := res, var_final := 0, var_index := 0 }
      else .error .typeError
    else
      meta_check_done mcoll { st with meta_byts := st.meta_byts ++ [byte] }
  else
    match seq_decode coll st.mod byte with
    | .error e => .error e
    | .ok (o, mod2) =>
      .ok (match o with | none => .noRet | some e => .retEvent e, { st with mod := mod2 })

/-- Repeated `MetaDecoder.seq_decode` over a byte list, collecting the
per-call return values. -/
def meta_seq_decode_list (coll : Nat → Option EvDesc) (mcoll : Nat → Option MetaClsDesc) :
    MetaState → List Nat → Except PyErr (List MetaRet × MetaState)
  | st, [] => .ok ([], st)
  | st, b :: rest =>
    match meta_seq_decode coll mcoll st b with
    | .error e => .error e
    | .ok (o, st2) =>
      match meta_seq_decode_list coll mcoll st2 rest with
      | .error e => .error e
      | .ok (os, st3) => .ok (o :: os, st3)

/- ----------------------------------------------------------------- -/
/- BaseContainer._handle_event (ymidi/containers.py lines 112-139). -/

/-- The handler loop of `BaseContainer._handle_event`: run the handlers of
`order` in sequence on state `s`; a handler that raises aborts the loop
with its exception, a handler that returns a truthy value stops the loop.
Returns the final state together with the list of handlers that were
actually invoked. -/
def run_hands {H S : Type} (f : H → S → Except PyErr (S × Bool)) :
    List H → S → Except PyErr (S × List H)
  | [], s => .ok (s, [])
  | h :: t, s =>
    match f h s with
    | .error e => .error e
    | .ok (s2, true) => .ok (s2, [h])
    | .ok (s2, false) =>
      match run_hands f t s2 with
      | .error e => .error e
      | .ok (s3, l) => .ok (s3, h :: l)

/-- Dispatch-key computation of `_handle_event`: `key = event.statusmsg`,
replaced by `event.type` when `event.statusmsg == META`. -/
def dispatch_key (statusmsg ty : Int) : Int :=
  if statusmsg = (META : Int) then ty else statusmsg

/-- Order-preserving deduplication keeping first occurrences: the members
of the Python set `set(collec[key] + collec[GLOBAL])` listed in the order
the concatenation would present them (what the spec asserts the runner
iterates over). -/
def first_dedup {α : Type} [DecidableEq α] (l : List α) : List α :=
  l.foldl (fun acc a => if a ∈ acc then acc else acc ++ [a]) []

/-- A valid iteration order of the Python set built from `pool`: some
permutation of the deduplicated pool (Python sets deduplicate but iterate
in an unspecified, hash-dependent order). -/
@[reducible]
def valid_enum {α : Type} [DecidableEq α] (order pool : List α) : Prop :=
  order.Perm (first_dedup pool)

/-- `BaseContainer._handle_event` with the set-iteration order made
explicit: the source computes `hands = set(collec[key] + collec[GLOBAL])`
and runs `for hand in hands: if hand(self, event, index): return`; `order`
stands for the iteration order of that set (constrained by `valid_enum
order (key_hands ++ glob_hands)` in the theorems) and `f` closes over the
`(event, index)` arguments. -/
def handle_event {H S : Type} (f : H → S → Except PyErr (S × Bool))
    (order : List H) (s : S) : Except PyErr (S × List H) :=
  run_hands f order s

/- ----------------------------------------------------------------- -/
/- Utility conversions (ymidi/misc.py). -/

/-- `de_to_ms` (`ymidi/misc.py` lines 50-65), exactly as written in the
source: a module-level function whose parameter list carries a stray
`self` before `(delta, division, mpb)`, computing
`delta * (mpb / division)` with Python float (true) division.  ℚ models
the float arithmetic; it is exact at every input used below. -/
def de_to_ms (self delta division mpb : ℚ) : ℚ := delta * (mpb / division)

/-- A 3-positional-argument call `de_to_ms(a, b, c)` — the form used by
every caller in the repository (`event_delta_time`, `event_time` in
`ymidi/handlers/track.py`; `Track.time_get` in `ymidi/containers.py`).
Python binds `self = a`, `delta = b`, `division = c` and finds the
required positional argument `mpb` missing, raising TypeError before the
body runs. -/
def de_to_ms_call3 (a b c : ℚ) : Except PyErr ℚ := .error .typeError

/- ----------------------------------------------------------------- -/
/- Track ingestion via submit_event with the default input handlers
   (ymidi/containers.py submit_event/_handle_event;
    ymidi/handlers/track.py; ymidi/handlers/maps.py DEFAULT_TRACK_IN). -/

/-- The mutable fields of an event that the default input handlers read or
write (`BaseEvent.__init__`). -/
structure SEv where
  delta : Int
  tick : Int
  time : ℚ
  delta_time : ℚ
deriving DecidableEq, Repr

/-- State of a `submit_event` run on a track: the previously stored events
(`base`), the event object being submitted (`cur`), whether `append_event`
has run yet (Python aliasing: once appended, the stored entry IS `cur`, so
later mutations of `cur` are visible in the track), and the track fields
the handlers read. -/
structure SubmitState where
  base : List SEv
  cur : SEv
  appended : Bool
  divisions : ℚ
  mpb : ℚ
deriving DecidableEq, Repr

/-- The contents of the track's list as the handlers observe it:
`base` plus the submitted event once `append_event` has run. -/
def track_events (st : SubmitState) : List SEv :=
  st.base ++ if st.appended then [st.cur] else []

/-- The five GLOBAL entries of `DEFAULT_TRACK_IN`
(`ymidi/handlers/maps.py`): `rehandle`, `event_tick`, `event_delta_time`,
`event_time`, `append_event`. -/
inductive DefH where
  | rehandle_h
  | event_tick_h
  | event_delta_time_h
  | event_time_h
  | append_event_h
deriving DecidableEq, Repr

/-- Semantics of the default input handlers (`ymidi/handlers/track.py`) at
insertion index `index`:
* `rehandle` triggers `container.rehandle()` when `index < len(container)`
  and the event is not in the container; `Track.rehandle` then calls
  `self._handle_event(event, index)` with only two arguments
  (`ymidi/containers.py` line 523) while `_handle_event` requires three,
  so the trigger branch raises TypeError.
* `event_tick` sets `event.tick = (container[index-1].tick if index > 0
  else 0) + event.delta`.
* `event_delta_time` calls `de_to_ms(event.delta, container.divisions,
  container._mpb)` — three positional arguments, TypeError (stray `self`).
* `event_time` reads `container[index-1].time` for `index > 0`, then makes
  the same failing `de_to_ms` call.
* `append_event` appends the event object to the track.
All of them return `None` (falsy) when they do not raise. -/
def run_def_h (h : DefH) (st : SubmitState) (index : Nat) :
    Except PyErr (SubmitState × Bool) :=
  match h with
  | .rehandle_h =>
    if index < (track_events st).length ∧ st.cur ∉ track_events st then
      .error .typeError
    else .ok (st, false)
  | .event_tick_h =>
    if index > 0 then
      match (track_events st)[index - 1]? with
      | none => .error .indexError
      | some prev =>
        .ok ({ st with cur := { st.cur with tick := prev.tick + st.cur.delta } }, false)
    else
      .ok ({ st with cur := { st.cur with tick := 0 + st.cur.delta } }, false)
  | .event_delta_time_h =>
    match de_to_ms_call3 st.cur.delta st.divisions st.mpb with
    | .error e => .error e
    | .ok v => .ok ({ st with cur := { st.cur with delta_time := v } }, false)
  | .event_time_h =>
    if index > 0 then
      match (track_events st)[index - 1]? with
      | none => .error .indexError
      | some prev =>
        match de_to_ms_call3 st.cur.delta st.divisions st.mpb with
        | .error e => .error e
        | .ok v => .ok ({ st with cur := { st.cur with time := prev.time + v } }, false)
    else
      match de_to_ms_call3 st.cur.delta st.divisions st.mpb with
      | .error e => .error e
      | .ok v => .ok ({ st with cur := { st.cur with time := 0 + v } }, false)
  | .append_event_h => .ok ({ st with appended := true }, false)

/-- The five-handler pool `set(in_hands[key] + in_hands[GLOBAL])` built by
`_handle_event` for an ordinary voice event under `DEFAULT_TRACK_IN`
(`in_hands[key]` is empty for such an event, GLOBAL holds all five). -/
def default_in_pool : List DefH :=
  [.rehandle_h, .event_tick_h, .event_delta_time_h, .event_time_h, .append_event_h]

/-- `BaseContainer.submit_event(event)` with the default index
(`index = len(self)`, captured before the handlers run) driving the
default input handlers in the set-iteration order `order`. -/
def submit_event_default (order : List DefH) (st : SubmitState) :
    Except PyErr (SubmitState × List DefH) :=
  run_hands (fun h s => run_def_h h s (track_events st).length) order st

/-- A freshly constructed `Track()` receiving one event (delta `d`):
no stored events, default `divisions = 48`,
`mpb = bpm_to_mpb(120, 4) = 500000.0`. -/
def fresh_submit (d : Int) : SubmitState :=
  ⟨[], ⟨d, 0, 0, 0⟩, false, 48, 500000⟩

/- ----------------------------------------------------------------- -/
/- Track output handlers: set_tempo (ymidi/handlers/track.py lines 79-93)
   and the Track tempo/mpb fields (ymidi/containers.py lines 404-472). -/

/-- The `Track` fields touched by tempo handling: `_tempo` (BPM), `_mpb`
(microseconds per beat), `timesig_den`, and `msb` — the stray instance
attribute that the misspelled assignment `track.msb = ...` in `set_tempo`
would create (absent, i.e. `none`, on a fresh track). -/
structure TrackTempoS where
  tempo : ℚ
  mpb : ℚ
  timesig_den : ℚ
  msb : Option ℚ
deriving DecidableEq, Repr

/-- The single entry of `DEFAULT_TRACK_OUT` (`ymidi/handlers/maps.py`):
`{TEMPO_SET: [set_tempo]}`. -/
inductive OutH where
  | set_tempo_h
deriving DecidableEq, Repr

/-- `set_tempo` (`ymidi/handlers/track.py` lines 79-93): the body is
`track.msb = event.tempo`.  Python evaluates the right-hand side first;
`SetTempo` (`ymidi/events/meta.py`) stores its payload as `bt1`, `bt2`,
`bt3` and no class in its hierarchy defines a `tempo` attribute, so the
lookup raises AttributeError before anything is assigned. -/
def run_out_h (h : OutH) (t : TrackTempoS) (index : Nat) :
    Except PyErr (TrackTempoS × Bool) :=
  match h with
  | .set_tempo_h => .error .attributeError

/-- What the assignment `track.msb = v` would do had the right-hand side
evaluated: create/overwrite the plain instance attribute `msb`.  `Track`
has no property named `msb`, so `_mpb` and `_tempo` are untouched. -/
def msb_assign (t : TrackTempoS) (v : ℚ) : TrackTempoS := { t with msb := some v }

/-- A `Track()` with its `__init__` defaults: `_tempo = 120`,
`_mpb = bpm_to_mpb(120, 4) = 500000.0`, `timesig_den = 4`, and no `msb`
attribute. -/
def fresh_track_tempo : TrackTempoS := ⟨120, 500000, 4, none⟩

/- ----------------------------------------------------------------- -/
/- Pattern playback: Pattern._get_newest (ymidi/containers.py 313-390). -/

/-- The event fields `_get_newest` reads from `temp_track.current()`:
`tick`, `statusmsg` and (meta) `type`. -/
structure CEvent where
  tick : Nat
  statusmsg : Int
  type : Nat
deriving DecidableEq, Repr

/-- A track as `_get_newest` sees it: its index in the pattern (`id`, used
only to tell tracks apart the way Python object identity does) and the
event its playback cursor currently points at (`current()`). -/
structure PTrack where
  id : Nat
  cur : CEvent
deriving DecidableEq, Repr

/-- The `Pattern` fields used by `_get_newest`. -/
structure PatState where
  started : Bool
  stopped : Bool
  playing : Bool
  format : Nat
  divisions : Nat
  num_data : Nat
  playing_tracks : List PTrack
deriving DecidableEq, Repr

/-- Return value of `_get_newest`: the synthetic `StartPattern(6, format,
len(self), divisions)`, the synthetic `StopPattern()`, or the selected
track (whose `current()` event is the one returned). -/
inductive GetOut where
  | start_pattern (length format num divisions : Nat)
  | stop_pattern
  | ev (t : PTrack)
deriving DecidableEq, Repr

/-- The selection loop of `_get_newest`:
`for num, temp_track in enumerate(self.playing_tracks): ...
 if ticks is None or event.tick <= ticks: first_event, ticks, track = ...`.
Because the comparison is `<=`, a later track whose tick EQUALS the
running minimum replaces the earlier one. -/
def select_newest (l : List PTrack) : Option PTrack :=
  l.foldl (fun best t =>
    match best with
    | none => some t
    | some b => if t.cur.tick ≤ b.cur.tick then some t else some b) none

/-- The EndOfTrack test of `_get_newest`:
`first_event.statusmsg == META and first_event.type == TRACK_END`. -/
def is_track_end (e : CEvent) : Bool :=
  e.statusmsg == (META : Int) && e.type == (TRACK_END : Nat)

/-- `Pattern._get_newest` (`ymidi/containers.py` lines 313-390): before
anything else, an un-`started` pattern returns `StartPattern` and a
`stopped` one raises `StopPlayback`; then the loop scans
`playing_tracks`; an empty `playing_tracks` yields `StopPattern` (note:
`self.stopped` is NOT set); a selected track whose current event is
EndOfTrack is removed from `playing_tracks`; the selected track and its
event are returned. -/
def get_newest (p : PatState) : Except PyErr (GetOut × PatState) :=
  if ¬ p.started then
    .ok (.start_pattern 6 p.format p.num_data p.divisions, { p with started := true })
  else if p.stopped then
    .error .stopPlayback
  else
    match select_newest p.playing_tracks with
    | none => .ok (.stop_pattern, { p with playing := false })
    | some t =>
      let p2 := if is_track_end t.cur then
          { p with playing_tracks := p.playing_tracks.erase t }
        else p
      .ok (.ev t, p2)

/- ----------------------------------------------------------------- -/
/- Pattern.divisions setter (ymidi/containers.py lines 193-209). -/

/-- The full set of `Track` instance fields (`BaseContainer.__init__` plus
`Track.__init__`), as a record so the setter's frame can be stated
field by field. -/
structure TrackFields where
  in_hands : Nat
  out_hands : Nat
  out_index : Nat
  in_index : Nat
  start_time : ℚ
  name : String
  tempo : ℚ
  instrument : String
  interval : ℚ
  lookahead : ℚ
  index : Nat
  last_time : ℚ
  timesig_num : Nat
  timesig_den : Nat
  mpb : ℚ
  divisions : Int
  events : List SEv
deriving DecidableEq, Repr

/-- The `Pattern` instance fields (`BaseContainer.__init__` plus
`Pattern.__init__`); `divisions_priv` models the `_divisions` attribute
and `tracks` the inherited `UserList` data.  `playing_tracks` is the list
of REFERENCES to track objects that `start_playback` copies out of the
data list, modelled as positions into `tracks` (the setter touches the
track objects through `self`, never this list of references), and
`start_pattern`/`stop_pattern` are the stored builtin-event references
(`None` until assigned). -/
structure PatternFields where
  in_hands : Nat
  out_hands : Nat
  out_index : Nat
  in_index : Nat
  start_time : ℚ
  divisions_priv : Int
  num_tracks : Nat
  track_index : Nat
  format : Nat
  playing_tracks : List Nat
  playing : Bool
  started : Bool
  stopped : Bool
  start_pattern : Option Nat
  stop_pattern : Option Nat
  tracks : List TrackFields
deriving DecidableEq, Repr

/-- The `Pattern.divisions` setter (`ymidi/containers.py` lines 193-209):
`self._divisions = value` followed by `for track in self:
track.divisions = value` (`Track.divisions` is a plain attribute). -/
def divisions_setter (p : PatternFields) (value : Int) : PatternFields :=
  { p with divisions_priv := value,
           tracks := p.tracks.map (fun t => { t with divisions := value }) }

/- ----------------------------------------------------------------- -/
/- Theorems.  Helper lemmas first. -/

theorem lor_shift7 (a c : Nat) (h : c < 128) : (a <<< 7) ||| c = a * 128 + c := by
  rw [Nat.shiftLeft_eq]
  have h2 : (2 : Nat) ^ 7 = 128 := by norm_num
  calc a * 2 ^ 7 ||| c = 2 ^ 7 * a ||| c := by rw [Nat.mul_comm]
    _ = 2 ^ 7 * a + c := (Nat.mul_add_lt_is_or (by omega) a).symm
    _ = a * 128 + c := by rw [Nat.mul_comm, h2]

theorem and_127_of_lt (c : Nat) (h : c < 128) : c &&& 0x7f = c := by
  have h2 : (0x7f : Nat) = 2 ^ 7 - 1 := by norm_num
  rw [h2, Nat.and_pow_two_sub_one_eq_mod]
  omega

theorem and_127_mod (c : Nat) : c &&& 0x7f = c % 128 := by
  have h2 : (0x7f : Nat) = 2 ^ 7 - 1 := by norm_num
  rw [h2, Nat.and_pow_two_sub_one_eq_mod]

theorem lor_128_eq (x : Nat) (h : x < 128) : x ||| 0x80 = 128 + x := by
  have h1 : (1 : Nat) <<< 7 = 0x80 := by decide
  rw [Nat.lor_comm, ← h1]
  have h3 := lor_shift7 1 x h
  omega

/-- Value accumulated by `read_varlen` over a most-significant-first group
list. -/
def varlen_fold (acc : Nat) (l : List Nat) : Nat :=
  l.foldl (fun a d => a * 128 + d) acc

theorem read_varlen_mark (l : List Nat) (hne : l ≠ [])
    (hlt : ∀ d ∈ l, d < 128) (acc idx : Nat) :
    read_varlen (mark_continuation l) acc idx =
      some (varlen_fold acc l, idx + l.length) := by
  induction l generalizing acc idx with
  | nil => exact absurd rfl hne
  | cons x t ih =>
    match t with
    | [] =>
      have hx : x < 128 := hlt x (by simp)
      simp only [mark_continuation, read_varlen, varlen_fold, List.foldl,
        List.length, and_127_of_lt x hx, lor_shift7 acc x hx]
      simp [hx]
    | y :: t2 =>
      have hx : x < 128 := hlt x (by simp)
      simp only [mark_continuation, read_varlen]
      rw [lor_128_eq x hx]
      have hnotlt : ¬ (128 + x < 0x80) := by omega
      simp only [hnotlt, if_false]
      have hand : (128 + x) &&& 0x7f = x := by
        rw [and_127_mod]; omega
      rw [hand, lor_shift7 acc x hx]
      rw [ih (by simp) (fun d hd => hlt d (by simp [hd]))]
      simp only [varlen_fold, List.foldl, List.length]
      have harith : idx + 1 + (t2.length + 1) = idx + (t2.length + 1 + 1) := by omega
      rw [harith]

theorem mark_continuation_length (l : List Nat) :
    (mark_continuation l).length = l.length := by
  induction l with
  | nil => rfl
  | cons x t ih =>
    match t with
    | [] => rfl
    | y :: t2 => simpa [mark_continuation] using ih

theorem write_varlen_groups_lt (n : Nat) : ∀ d ∈ write_varlen_groups n, d < 128 := by
  induction n using Nat.strong_induction_on with
  | _ n ih =>
    match n with
    | 0 => simp [write_varlen_groups]
    | m + 1 =>
      simp only [write_varlen_groups, List.mem_cons]
      intro d hd
      rcases hd with h | h
      · omega
      · exact ih ((m + 1) / 128) (Nat.div_lt_self (Nat.succ_pos m) (by decide)) d h

theorem varlen_fold_groups (n : Nat) : ∀ acc : Nat,
    varlen_fold acc (write_varlen_groups n).reverse =
      acc * 128 ^ (write_varlen_groups n).length + n := by
  induction n using Nat.strong_induction_on with
  | _ n ih =>
    intro acc
    match n with
    | 0 => simp [write_varlen_groups, varlen_fold]
    | m + 1 =>
      simp only [write_varlen_groups, List.reverse_cons, List.length_cons]
      rw [varlen_fold, List.foldl_append]
      have ihm := ih ((m + 1) / 128) (Nat.div_lt_self (Nat.succ_pos m) (by decide)) acc
      rw [varlen_fold] at ihm
      rw [ihm]
      simp only [List.foldl]
      have hdm : 128 * ((m + 1) / 128) + (m + 1) % 128 = m + 1 := Nat.div_add_mod (m + 1) 128
      ring_nf
      omega

/-- C2: for every v in [0, 0x0FFFFFFF], `read_varlen(write_varlen(v))`
(from a fresh varlen state) returns exactly `(v, len(write_varlen(v)))`. -/
theorem varlen_roundtrip (v : Nat) (hv : v ≤ 0x0FFFFFFF) :
    read_varlen (write_varlen v) 0 0 = some (v, (write_varlen v).length) := by
  match hn : v with
  | 0 =>
    have h0 : write_varlen 0 = [0] := by simp [write_varlen, write_varlen_groups]
    rw [h0]
    simp [read_varlen]
  | m + 1 =>
    have hgroups : write_varlen_groups (m + 1) =
        ((m + 1) % 128) :: write_varlen_groups ((m + 1) / 128) := by
      simp [write_varlen_groups]
    have hne : (write_varlen_groups (m + 1)).reverse ≠ [] := by
      rw [hgroups]; simp
    have hwv : write_varlen (m + 1) =
        mark_continuation (write_varlen_groups (m + 1)).reverse := by
      rw [write_varlen, hgroups]
    rw [hwv]
    rw [read_varlen_mark _ hne
      (fun d hd => write_varlen_groups_lt (m + 1) d (List.mem_reverse.mp hd)) 0 0]
    rw [varlen_fold_groups (m + 1) 0]
    simp [mark_continuation_length]

/-- A NoteOn-like channel voice event class: `length = 2`,
`has_channel = True`, registered under 0x90..0x9F the way
`ModularDecoder.load_event` registers channel events with an integer
status message. -/
def note_on_desc : EvDesc := ⟨2, false, none, true, 0x90⟩

/-- The TimingClock Real-Time event class: `RealTimeMessage.length = 0`,
no channel, status 0xF8. -/
def timing_clock_desc : EvDesc := ⟨0, false, none, false, 0xF8⟩

/-- A decoder collection holding the NoteOn family and TimingClock. -/
def coll_rt : Nat → Option EvDesc := fun n =>
  if 0x90 ≤ n && n ≤ 0x9F then some note_on_desc
  else if n = 0xF8 then some timing_clock_desc else none

/-- A freshly constructed `ModularDecoder`: empty stacks. -/
def dec_fresh : DecState := ⟨[], [], []⟩

/-- C1: feeding `0x90 60` leaves a NoteOn frame in progress with running
status 0x90; the Real-Time byte 0xF8 emits TimingClock immediately and
leaves the `data`/`event` frame stacks untouched, BUT `decode()` inserts
0xF8 at the front of `decode_status`, so the remembered running status
(`get_running()`, i.e. `decode_status[0]`) is now 0xF8, not 0x90 — the
state is not identical to the state before the call.  The interrupted
NoteOn still decodes to the same `NoteOn(60, 64, channel=0)` because its
frame retains its own status byte, yet the polluted `decode_status`
remains after both events complete, unlike the uninterrupted run. -/
theorem seq_decode_realtime_pollutes_running_status :
    seq_decode_list coll_rt dec_fresh [0x90, 60] =
      .ok ([none, none], ⟨[0x90], [[0x90, 60]], [note_on_desc]⟩)
    ∧ seq_decode coll_rt ⟨[0x90], [[0x90, 60]], [note_on_desc]⟩ 0xF8 =
      .ok (some ⟨0xF8, [], none⟩, ⟨[0xF8, 0x90], [[0x90, 60]], [note_on_desc]⟩)
    ∧ (⟨[0xF8, 0x90], [[0x90, 60]], [note_on_desc]⟩ : DecState) ≠
      ⟨[0x90], [[0x90, 60]], [note_on_desc]⟩
    ∧ seq_decode_list coll_rt dec_fresh [0x90, 60, 0xF8, 64] =
      .ok ([none, none, some ⟨0xF8, [], none⟩, some ⟨0x90, [60, 64], some 0⟩],
           ⟨[0xF8, 0x90], [], []⟩)
    ∧ seq_decode_list coll_rt dec_fresh [0x90, 60, 64] =
      .ok ([none, none, some ⟨0x90, [60, 64], some 0⟩], ⟨[0x90], [], []⟩) := by
  refine ⟨by rfl, by rfl, ?_, by rfl, by rfl⟩
  intro h
  simp at h

/-- The `SetTempo` meta event class as a `meta_collection` entry:
`type = TEMPO_SET = 0x51`, `statusmsg = META`. -/
def set_tempo_cls : MetaClsDesc := ⟨0x51, (0xFF : Int)⟩

/-- A meta collection with `SetTempo` registered under its type byte. -/
def mcoll_st : Nat → Option MetaClsDesc := fun n =>
  if n = 0x51 then some set_tempo_cls else none

/-- A freshly constructed `MetaDecoder`: all context variables at their
initial values and empty inherited stacks. -/
def meta_fresh : MetaState := ⟨false, none, 0, [], 0, 0, dec_fresh⟩

/-- C9: feeding the complete meta event `FF 51 03 07 A1 20` (SetTempo,
length 3) byte-by-byte, the call consuming the last body byte resets the
meta-decoding state to its initial values — but it returns
`meta_collection[meta_type]`, the event CLASS (`return event` in the
source), not the instance `final = event(*meta_byts)` that the same call
constructs and discards. -/
theorem meta_seq_decode_returns_class_not_instance :
    meta_seq_decode_list (fun _ => none) mcoll_st meta_fresh
        [0xFF, 0x51, 0x03, 0x07, 0xA1, 0x20] =
      .ok ([.noRet, .noRet, .noRet, .noRet, .noRet, .retCls set_tempo_cls], meta_fresh)
    ∧ meta_constructed mcoll_st
        ⟨true, some 0x51, 3, [0x07, 0xA1, 0x20], 0, 0, dec_fresh⟩ =
      ⟨0x51, [0x07, 0xA1, 0x20], none⟩
    ∧ ∀ e : PyEvent, MetaRet.retCls set_tempo_cls ≠ MetaRet.retEvent e := by
  refine ⟨by rfl, by rfl, ?_⟩
  intro e h
  cases h

/-- The selection returned by `_get_newest`'s loop is the LAST track
attaining the minimal tick: it splits `playing_tracks` as `l1 ++ t :: l2`
with `t.tick` ≤ every tick in `l1` and < every tick in `l2`. -/
def sel_last_spec (l : List PTrack) (t : PTrack) : Prop :=
  ∃ l1 l2, l = l1 ++ t :: l2
    ∧ (∀ u ∈ l1, t.cur.tick ≤ u.cur.tick)
    ∧ (∀ u ∈ l2, t.cur.tick < u.cur.tick)

theorem sel_last_spec_min {l : List PTrack} {t : PTrack} (h : sel_last_spec l t) :
    ∀ u ∈ l, t.cur.tick ≤ u.cur.tick := by
  obtain ⟨l1, l2, hl, h1, h2⟩ := h
  intro u hu
  rw [hl] at hu
  rcases List.mem_append.mp hu with h | h
  · exact h1 u h
  · rcases List.mem_cons.mp h with h | h
    · rw [h]
    · exact Nat.le_of_lt (h2 u h)

theorem select_newest_isSome (xs : List PTrack) (b : PTrack) :
    (xs.foldl (fun best t =>
      match best with
      | none => some t
      | some b2 => if t.cur.tick ≤ b2.cur.tick then some t else some b2) (some b)).isSome := by
  induction xs generalizing b with
  | nil => rfl
  | cons x t ih =>
    simp only [List.foldl]
    by_cases h : x.cur.tick ≤ b.cur.tick <;> simp [h, ih]

theorem select_newest_none_iff (l : List PTrack) :
    select_newest l = none ↔ l = [] := by
  constructor
  · intro h
    match l with
    | [] => rfl
    | x :: xs =>
      exfalso
      have := select_newest_isSome xs x
      rw [select_newest, List.foldl] at h
      rw [h] at this
      exact Bool.noConfusion this
  · intro h; rw [h]; rfl

theorem select_newest_spec (l : List PTrack) (t : PTrack)
    (h : select_newest l = some t) : sel_last_spec l t := by
  induction l using List.reverseRecOn generalizing t with
  | nil => exact absurd h (by simp [select_newest])
  | append_singleton l a ih =>
    rw [select_newest, List.foldl_append] at h
    rcases hsel : select_newest l with _ | b
    · have hl : l = [] := (select_newest_none_iff l).mp hsel
      rw [select_newest] at hsel
      rw [hsel] at h
      have h2 : some a = some t := h
      cases h2
      exact ⟨[], [], by simp [hl], by simp, by simp⟩
    · rw [select_newest] at hsel
      rw [hsel] at h
      have h2 : (if a.cur.tick ≤ b.cur.tick then some a else some b) = some t := h
      have hspec := ih b hsel
      by_cases hle : a.cur.tick ≤ b.cur.tick
      · rw [if_pos hle] at h2
        cases h2
        refine ⟨l, [], rfl, ?_, by simp⟩
        intro u hu
        exact Nat.le_trans hle (sel_last_spec_min hspec u hu)
      · rw [if_neg hle] at h2
        cases h2
        obtain ⟨l1, l2, hl, h1, h2⟩ := hspec
        refine ⟨l1, l2 ++ [a], by rw [hl]; simp, h1, ?_⟩
        intro u hu
        rcases List.mem_append.mp hu with h | h
        · exact h2 u h
        · have : u = a := by simpa using h
          rw [this]; omega

/-- C4 amended: during playback (pattern started, not stopped, at least
one playing track), `_get_newest` returns the event of the track whose
tick is minimal, with ties broken in favour of the HIGHEST track index:
the selected track is the last element of `playing_tracks` attaining the
minimal tick. -/
theorem get_newest_tie_highest (p : PatState) (h1 : p.started = true)
    (h2 : p.stopped = false) (h3 : p.playing_tracks ≠ []) :
    ∃ t p2, get_newest p = .ok (.ev t, p2) ∧ sel_last_spec p.playing_tracks t := by
  rcases hsel : select_newest p.playing_tracks with _ | t
  · exact absurd ((select_newest_none_iff _).mp hsel) h3
  · refine ⟨t, if is_track_end t.cur then
        { p with playing_tracks := p.playing_tracks.erase t } else p,
      ?_, select_newest_spec _ _ hsel⟩
    rw [get_newest, h1, h2]
    simp only [Bool.not_true, Bool.false_eq_true, if_false, hsel]
    simp

/-- Two playing tracks whose next events share tick 5. -/
def p_tie : PatState :=
  ⟨true, false, true, 1, 96, 2, [⟨0, ⟨5, 0x90, 0⟩⟩, ⟨1, ⟨5, 0x90, 0⟩⟩]⟩

/-- C4 counterexample: with both playing tracks' next events at tick 5,
`_get_newest` returns the event of track index 1, not of the
lowest-indexed track 0 as the claim states. -/
theorem get_newest_tie_counterexample :
    get_newest p_tie = .ok (.ev ⟨1, ⟨5, 0x90, 0⟩⟩, p_tie)
    ∧ (⟨1, ⟨5, 0x90, 0⟩⟩ : PTrack).id ≠ (⟨0, ⟨5, 0x90, 0⟩⟩ : PTrack).id := by
  exact ⟨by rfl, by simp⟩

/-- Witness for `get_newest_tie_highest` at the concrete tied pattern. -/
theorem get_newest_tie_highest_witness :
    ∃ t p2, get_newest p_tie = .ok (.ev t, p2) ∧ sel_last_spec p_tie.playing_tracks t :=
  get_newest_tie_highest p_tie rfl rfl (by simp [p_tie])

/-- A pattern with zero tracks put into playback
(`start_playback` copies the empty track list). -/
def p_empty : PatState := ⟨false, false, true, 0, 48, 0, []⟩

/-- C5: once `playing_tracks` is empty, `_get_newest` returns `StopPattern`
on EVERY call: the first call returns the synthetic StartPattern, the
second returns StopPattern, and the third returns StopPattern AGAIN
instead of raising `StopPlayback` — `self.stopped` is never set to `True`
(it is still `false` after the StopPattern call), so the `PlaybackEnded`
branch is dead. -/
theorem get_newest_stop_pattern_repeats :
    get_newest p_empty = .ok (.start_pattern 6 0 0 48, ⟨true, false, true, 0, 48, 0, []⟩)
    ∧ get_newest ⟨true, false, true, 0, 48, 0, []⟩ =
        .ok (.stop_pattern, ⟨true, false, false, 0, 48, 0, []⟩)
    ∧ (⟨true, false, false, 0, 48, 0, []⟩ : PatState).stopped = false
    ∧ get_newest ⟨true, false, false, 0, 48, 0, []⟩ =
        .ok (.stop_pattern, ⟨true, false, false, 0, 48, 0, []⟩) := by
  exact ⟨rfl, rfl, rfl, rfl⟩

/- Handler-runner lemmas for C6 and C3. -/

theorem first_dedup_aux {α : Type} [DecidableEq α] (l acc : List α) (hacc : acc.Nodup) :
    (l.foldl (fun acc a => if a ∈ acc then acc else acc ++ [a]) acc).Nodup
    ∧ ∀ x, x ∈ l.foldl (fun acc a => if a ∈ acc then acc else acc ++ [a]) acc ↔
        x ∈ acc ∨ x ∈ l := by
  induction l generalizing acc with
  | nil => simpa using hacc
  | cons a t ih =>
    simp only [List.foldl]
    by_cases ha : a ∈ acc
    · rw [if_pos ha]
      obtain ⟨h1, h2⟩ := ih acc hacc
      refine ⟨h1, fun x => ?_⟩
      rw [h2 x]
      constructor
      · rintro (h | h) <;> simp [h]
      · rintro (h | h)
        · exact Or.inl h
        · rcases List.mem_cons.mp h with h | h
          · exact Or.inl (h ▸ ha)
          · exact Or.inr h
    · rw [if_neg ha]
      have hacc2 : (acc ++ [a]).Nodup := by
        simp [List.nodup_append, hacc, ha]
      obtain ⟨h1, h2⟩ := ih (acc ++ [a]) hacc2
      refine ⟨h1, fun x => ?_⟩
      rw [h2 x]
      simp only [List.mem_append, List.mem_singleton, List.mem_cons]
      tauto

theorem first_dedup_nodup {α : Type} [DecidableEq α] (l : List α) :
    (first_dedup l).Nodup :=
  (first_dedup_aux l [] (by simp)).1

theorem mem_first_dedup {α : Type} [DecidableEq α] (x : α) (l : List α) :
    x ∈ first_dedup l ↔ x ∈ l := by
  have := (first_dedup_aux l [] (by simp)).2 x
  simpa [first_dedup] using this

theorem run_hands_all_false {H S : Type} (f : H → S → Except PyErr (S × Bool))
    (hf : ∀ h s, ∃ s2, f h s = .ok (s2, false)) :
    ∀ (order : List H) (s : S), ∃ s2, run_hands f order s = .ok (s2, order) := by
  intro order
  induction order with
  | nil => exact fun s => ⟨s, rfl⟩
  | cons h t ih =>
    intro s
    obtain ⟨s2, hs2⟩ := hf h s
    obtain ⟨s3, hs3⟩ := ih s2
    refine ⟨s3, ?_⟩
    simp only [run_hands, hs2, hs3]

theorem run_hands_inv_prefix {H S : Type} (f : H → S → Except PyErr (S × Bool)) :
    ∀ (order : List H) (s s2 : S) (inv : List H),
      run_hands f order s = .ok (s2, inv) → inv.Sublist order := by
  intro order
  induction order with
  | nil =>
    intro s s2 inv h
    rw [run_hands] at h
    cases h
    exact List.Sublist.refl []
  | cons a t ih =>
    intro s s2 inv h
    rcases hf : f a s with e | ⟨s3, b⟩
    · simp only [run_hands, hf] at h
      exact Except.noConfusion h
    · match b with
      | true =>
        simp only [run_hands, hf, Except.ok.injEq, Prod.mk.injEq] at h
        rw [← h.2]
        simp
      | false =>
        rcases hrec : run_hands f t s3 with e | ⟨s4, l⟩
        · simp only [run_hands, hf, hrec] at h
          exact Except.noConfusion h
        · simp only [run_hands, hf, hrec, Except.ok.injEq, Prod.mk.injEq] at h
          rw [← h.2]
          exact List.Sublist.cons₂ a (ih s3 s4 l hrec)

/-- C6 amended: with `order` any valid iteration order of the set
`set(collec[key] + collec[GLOBAL])` (a permutation of the deduplicated
concatenation), `_handle_event` invokes handlers drawn exactly from that
union — every handler of the union exactly once when none returns truthy —
and stops at the first truthy return; the ORDER of invocation is the
arbitrary set order, not the concatenation order. -/
theorem handle_event_set_semantics {H S : Type} [DecidableEq H]
    (f : H → S → Except PyErr (S × Bool)) (key_hands glob_hands order : List H)
    (s : S) (hord : valid_enum order (key_hands ++ glob_hands)) :
    ((∀ h s2, ∃ s3, f h s2 = .ok (s3, false)) →
      ∃ s2, handle_event f order s = .ok (s2, order)
        ∧ order.Perm (first_dedup (key_hands ++ glob_hands)))
    ∧ (∀ s2 inv, handle_event f order s = .ok (s2, inv) →
        ∀ h ∈ inv, h ∈ key_hands ++ glob_hands)
    ∧ (∀ (h : H) (t : List H) (s2 s3 : S), f h s2 = .ok (s3, true) →
        handle_event f (h :: t) s2 = .ok (s3, [h])) := by
  refine ⟨?_, ?_, ?_⟩
  · intro hf
    obtain ⟨s2, hs2⟩ := run_hands_all_false f hf order s
    exact ⟨s2, hs2, hord⟩
  · intro s2 inv hrun h hmem
    have hsub := run_hands_inv_prefix f order s s2 inv hrun
    have : h ∈ order := hsub.mem hmem
    have : h ∈ first_dedup (key_hands ++ glob_hands) := hord.mem_iff.mp this
    exact (mem_first_dedup h _).mp this
  · intro h t s2 s3 hf
    simp only [handle_event, run_hands, hf]

/-- The `_handle_event` handler loop of a container, instantiated with a
state that records the invocation sequence: each handler appends its own
identity and returns a falsy value. -/
def log_handler : Nat → List Nat → Except PyErr (List Nat × Bool) :=
  fun h s => .ok (s ++ [h], false)

/-- C6 counterexample: with handler 0 registered under the event's key and
handler 1 under GLOBAL, the set iteration order `[1, 0]` is a valid order
of `set(collec[key] + collec[GLOBAL])`, and the runner then invokes the
handlers in the order `[1, 0]` — not the deduplicated concatenation order
`[0, 1]` that the claim asserts. -/
theorem handle_event_order_counterexample :
    valid_enum [1, 0] ([0] ++ [1])
    ∧ handle_event log_handler [1, 0] ([] : List Nat) = .ok ([1, 0], [1, 0])
    ∧ [1, 0] ≠ first_dedup ([0] ++ [1]) := by
  refine ⟨by decide, by rfl, by decide⟩

/-- Witness for `handle_event_set_semantics` at the concrete two-handler
instance. -/
theorem handle_event_set_semantics_witness :
    ∃ s2, handle_event log_handler [1, 0] ([] : List Nat) = .ok (s2, [1, 0])
      ∧ ([1, 0] : List Nat).Perm (first_dedup ([0] ++ [1])) :=
  (handle_event_set_semantics log_handler [0] [1] [1, 0] [] (by decide)).1
    (fun h s2 => ⟨s2 ++ [h], rfl⟩)

theorem run_hands_cons_error {H S : Type} (f : H → S → Except PyErr (S × Bool))
    (h : H) (t : List H) (s : S) (e : PyErr) (hf : f h s = .error e) :
    run_hands f (h :: t) s = .error e := by
  simp only [run_hands, hf]

theorem run_hands_cons_ok_false_error {H S : Type} (f : H → S → Except PyErr (S × Bool))
    (h : H) (t : List H) (s s2 : S) (e : PyErr) (hf : f h s = .ok (s2, false))
    (ht : run_hands f t s2 = .error e) : run_hands f (h :: t) s = .error e := by
  simp only [run_hands, hf, ht]

theorem submit_default_raises_aux (order : List DefH)
    (hmem : DefH.event_delta_time_h ∈ order) (st : SubmitState) :
    run_hands (fun h s => run_def_h h s 0) order st = .error .typeError := by
  induction order generalizing st with
  | nil => cases hmem
  | cons a t ih =>
    match a with
    | .event_delta_time_h =>
      exact run_hands_cons_error _ _ _ _ _ rfl
    | .event_time_h =>
      exact run_hands_cons_error _ _ _ _ _ rfl
    | .rehandle_h =>
      have ht : DefH.event_delta_time_h ∈ t := by
        rcases List.mem_cons.mp hmem with h | h
        · exact absurd h (by simp)
        · exact h
      by_cases hc : 0 < (track_events st).length ∧ st.cur ∉ track_events st
      · exact run_hands_cons_error _ _ _ _ _ (by simp only [run_def_h, if_pos hc])
      · exact run_hands_cons_ok_false_error _ _ _ _ st _
          (by simp only [run_def_h, if_neg hc]) (ih ht st)
    | .event_tick_h =>
      have ht : DefH.event_delta_time_h ∈ t := by
        rcases List.mem_cons.mp hmem with h | h
        · exact absurd h (by simp)
        · exact h
      exact run_hands_cons_ok_false_error _ _ _ _ _ _
        (show run_def_h DefH.event_tick_h st 0 =
          Except.ok ({ st with cur := { st.cur with tick := 0 + st.cur.delta } }, false)
          from rfl) (ih ht _)
    | .append_event_h =>
      have ht : DefH.event_delta_time_h ∈ t := by
        rcases List.mem_cons.mp hmem with h | h
        · exact absurd h (by simp)
        · exact h
      exact run_hands_cons_ok_false_error _ _ _ _ _ _
        (show run_def_h DefH.append_event_h st 0 =
          Except.ok ({ st with appended := true }, false) from rfl) (ih ht _)

/-- C3: with the default input handlers, `submit_event` on a fresh track
raises TypeError for EVERY valid iteration order of the handler set:
`event_delta_time` (and `event_time`) call `de_to_ms` with three
positional arguments while `de_to_ms` is defined with a stray `self`
parameter, so ingestion never completes and the claimed tick invariant is
never established. -/
theorem submit_event_default_raises (order : List DefH)
    (hord : valid_enum order default_in_pool) (d : Int) :
    submit_event_default order (fresh_submit d) = .error .typeError := by
  have hmem : DefH.event_delta_time_h ∈ order := by
    have h1 : DefH.event_delta_time_h ∈ first_dedup default_in_pool := by decide
    exact hord.mem_iff.mpr h1
  exact submit_default_raises_aux order hmem (fresh_submit d)

/-- Witness for `submit_event_default_raises` at the concatenation order
itself and delta 0. -/
theorem submit_event_default_raises_witness :
    valid_enum default_in_pool default_in_pool
    ∧ submit_event_default default_in_pool (fresh_submit 0) = .error .typeError :=
  ⟨by decide, submit_event_default_raises default_in_pool (by decide) 0⟩

/-- C7: the dispatch key of a SetTempo meta event is `TEMPO_SET`, whose
`DEFAULT_TRACK_OUT` chain is `[set_tempo]`; running that chain raises
AttributeError (SetTempo stores `bt1 bt2 bt3`, there is no `event.tempo`),
and even the assignment the handler attempts — `track.msb = value`, a
misspelling of `mpb` — would leave the track's `_mpb` and `_tempo` fields
unchanged, so after handling `mpb` is NOT the event's tempo value. -/
theorem set_tempo_handler_fails :
    dispatch_key ((META : Nat) : Int) ((TEMPO_SET : Nat) : Int) = ((TEMPO_SET : Nat) : Int)
    ∧ handle_event (fun h t => run_out_h h t 0) [.set_tempo_h] fresh_track_tempo =
        .error .attributeError
    ∧ (msb_assign fresh_track_tempo 1000000).mpb = fresh_track_tempo.mpb
    ∧ (msb_assign fresh_track_tempo 1000000).tempo = fresh_track_tempo.tempo
    ∧ fresh_track_tempo.mpb ≠ (1000000 : ℚ) := by
  refine ⟨by rfl, by rfl, by rfl, by rfl, by norm_num [fresh_track_tempo]⟩

/-- C8: `de_to_ms` computes `delta * (mpb / division)` with float (true)
division — at `delta = 1, division = 2, mpb = 1` the result is 1/2, not
the truncating integer quotient `(1 * 1) / 2 = 0` the claim requires —
and the 3-positional-argument call shape `delta_to_us(d, div, mpb)` that
the claim (and every caller in the repository) uses raises TypeError
because of the stray `self` parameter. -/
theorem de_to_ms_not_integer_division :
    de_to_ms_call3 1 2 1 = .error .typeError
    ∧ de_to_ms 0 1 2 1 = 1 / 2
    ∧ ((1 * 1) / 2 : Int) = 0
    ∧ de_to_ms 0 1 2 1 ≠ (((1 * 1 / 2 : Int) : ℚ)) := by
  refine ⟨by rfl, by norm_num [de_to_ms], by decide, by norm_num [de_to_ms]⟩

/-- C10: `Pattern.divisions = value` sets the pattern's `_divisions` and
the `divisions` attribute of every contained track to `value`, and
changes no other field of the pattern or of any track (stated field by
field over the full field set of both records). -/
theorem divisions_setter_frame (p : PatternFields) (v : Int) :
    (divisions_setter p v).divisions_priv = v
    ∧ (divisions_setter p v).tracks.map (fun t => t.divisions) = p.tracks.map (fun _ => v)
    ∧ (divisions_setter p v).in_hands = p.in_hands
    ∧ (divisions_setter p v).out_hands = p.out_hands
    ∧ (divisions_setter p v).out_index = p.out_index
    ∧ (divisions_setter p v).in_index = p.in_index
    ∧ (divisions_setter p v).start_time = p.start_time
    ∧ (divisions_setter p v).num_tracks = p.num_tracks
    ∧ (divisions_setter p v).track_index = p.track_index
    ∧ (divisions_setter p v).format = p.format
    ∧ (divisions_setter p v).playing_tracks = p.playing_tracks
    ∧ (divisions_setter p v).playing = p.playing
    ∧ (divisions_setter p v).started = p.started
    ∧ (divisions_setter p v).stopped = p.stopped
    ∧ (divisions_setter p v).start_pattern = p.start_pattern
    ∧ (divisions_setter p v).stop_pattern = p.stop_pattern
    ∧ (divisions_setter p v).tracks.length = p.tracks.length
    ∧ (divisions_setter p v).tracks.map (fun t => t.in_hands) = p.tracks.map (fun t => t.in_hands)
    ∧ (divisions_setter p v).tracks.map (fun t => t.out_hands) = p.tracks.map (fun t => t.out_hands)
    ∧ (divisions_setter p v).tracks.map (fun t => t.out_index) = p.tracks.map (fun t => t.out_index)
    ∧ (divisions_setter p v).tracks.map (fun t => t.in_index) = p.tracks.map (fun t => t.in_index)
    ∧ (divisions_setter p v).tracks.map (fun t => t.start_time) = p.tracks.map (fun t => t.start_time)
    ∧ (divisions_setter p v).tracks.map (fun t => t.name) = p.tracks.map (fun t => t.name)
    ∧ (divisions_setter p v).tracks.map (fun t => t.tempo) = p.tracks.map (fun t => t.tempo)
    ∧ (divisions_setter p v).tracks.map (fun t => t.instrument) = p.tracks.map (fun t => t.instrument)
    ∧ (divisions_setter p v).tracks.map (fun t => t.interval) = p.tracks.map (fun t => t.interval)
    ∧ (divisions_setter p v).tracks.map (fun t => t.lookahead) = p.tracks.map (fun t => t.lookahead)
    ∧ (divisions_setter p v).tracks.map (fun t => t.index) = p.tracks.map (fun t => t.index)
    ∧ (divisions_setter p v).tracks.map (fun t => t.last_time) = p.tracks.map (fun t => t.last_time)
    ∧ (divisions_setter p v).tracks.map (fun t => t.timesig_num) = p.tracks.map (fun t => t.timesig_num)
    ∧ (divisions_setter p v).tracks.map (fun t => t.timesig_den) = p.tracks.map (fun t => t.timesig_den)
    ∧ (divisions_setter p v).tracks.map (fun t => t.mpb) = p.tracks.map (fun t => t.mpb)
    ∧ (divisions_setter p v).tracks.map (fun t => t.events) = p.tracks.map (fun t => t.events) := by
  refine ⟨rfl, ?_, rfl, rfl, rfl, rfl, rfl, rfl, rfl, rfl, rfl, rfl, rfl, rfl,
    rfl, rfl, ?_,
    ?_, ?_, ?_, ?_, ?_, ?_, ?_, ?_, ?_, ?_, ?_, ?_, ?_, ?_, ?_, ?_⟩ <;>
    simp [divisions_setter, List.map_map, Function.comp_def]

/-- Witness for `varlen_roundtrip` at v = 128 (which encodes to
`[0x81, 0x00]`). -/
theorem varlen_roundtrip_witness :
    128 ≤ 0x0FFFFFFF
    ∧ read_varlen (write_varlen 128) 0 0 = some (128, (write_varlen 128).length) :=
  ⟨by norm_num, varlen_roundtrip 128 (by norm_num)⟩
